import Mathlib

/-!
Verification of the BGZF writer and companion leaf types of the noodles
repository, shallowly embedded in Lean.

Bytes are modelled as natural numbers (values < 256 where it matters);
machine-integer truncation (`as u16`, u32 little-endian serialization)
is made explicit through `% 256`-style arithmetic inside the encoders.
The external deflate compressor and CRC-32 routine (crate `flate2`) are
abstracted as function parameters `c : List Nat → List Nat` and
`k : List Nat → Nat`: the writer's logic under study never inspects
their output beyond its length and value.
-/

/-- Little-endian serialization of a 16-bit value: the two bytes written by
`write_u16::<LittleEndian>` after an `as u16` cast (the bytes capture exactly
the low 16 bits of `n`). -/
def u16le (n : Nat) : List Nat := [n % 256, n / 256 % 256]

/-- Little-endian serialization of a 32-bit value, as written by
`write_u32::<LittleEndian>` (the four bytes capture exactly the low 32 bits). -/
def u32le (n : Nat) : List Nat :=
  [n % 256, n / 2 ^ 8 % 256, n / 2 ^ 16 % 256, n / 2 ^ 24 % 256]

/-- Source constant `MAX_BGZF_BLOCK_SIZE : u32 = 65536`. -/
def MAX_BGZF_BLOCK_SIZE : Nat := 65536

/-- Modelled from the spec: the constant `BGZF_HEADER_SIZE` lives in the
crate root, outside the provided sources; the spec's block-layout table
places the compressed payload at offset 18, so the header is 18 bytes.
The 28-byte `BGZF_EOF` constant in the sources (an 18-byte header, 2-byte
payload, 8-byte trailer) pins the same value. -/
def BGZF_HEADER_SIZE : Nat := 18

/-- Modelled from the spec: `gz::TRAILER_SIZE` (outside the provided
sources) is 8 — a 4-byte CRC-32 plus a 4-byte ISIZE, per the spec's
block-layout table. -/
def TRAILER_SIZE : Nat := 8

/-- Source constant `BGZF_FLG = 0x04` (FEXTRA). -/
def BGZF_FLG : Nat := 0x04

/-- Source constant `BGZF_XFL = 0x00`. -/
def BGZF_XFL : Nat := 0x00

/-- Source constant `BGZF_XLEN = 6`. -/
def BGZF_XLEN : Nat := 6

/-- Source constant `BGZF_SI1 = 0x42`. -/
def BGZF_SI1 : Nat := 0x42

/-- Source constant `BGZF_SI2 = 0x43`. -/
def BGZF_SI2 : Nat := 0x43

/-- Source constant `BGZF_SLEN = 2`. -/
def BGZF_SLEN : Nat := 2

/-- Modelled from the spec: `gz::MAGIC_NUMBER` (outside the provided
sources) — the gzip magic bytes `1f 8b`, also visible as the first two
bytes of the source's `BGZF_EOF` constant. -/
def GZ_MAGIC_NUMBER : List Nat := [0x1f, 0x8b]

/-- Modelled from the spec: `gz::CompressionMethod::Deflate as u8` (outside
the provided sources) is 8, the deflate compression-method byte, also the
third byte of the source's `BGZF_EOF` constant. -/
def GZ_CM_DEFLATE : Nat := 0x08

/-- Modelled from the spec: `gz::MTIME_NONE` (outside the provided sources)
is the zeroed 32-bit modification time. -/
def GZ_MTIME_NONE : Nat := 0

/-- Modelled from the spec: `gz::OperatingSystem::Unknown as u8` (outside
the provided sources) is `0xff`, also the tenth byte of the source's
`BGZF_EOF` constant. -/
def GZ_OS_UNKNOWN : Nat := 0xff

/-- Source constant `BGZF_EOF`: the fixed 28-byte empty-block end-of-file
marker. -/
def BGZF_EOF : List Nat :=
  [0x1f, 0x8b, 0x08, 0x04, 0x00, 0x00, 0x00, 0x00, 0x00, 0xff, 0x06, 0x00,
   0x42, 0x43, 0x02, 0x00, 0x1b, 0x00, 0x03, 0x00, 0x00, 0x00, 0x00, 0x00,
   0x00, 0x00, 0x00, 0x00]

/-- Embedding of `write_header(writer, cdata_len)`: the 18 bytes appended to
the sink. The BSIZE field is `(cdata_len + BGZF_HEADER_SIZE + gz::TRAILER_SIZE
- 1) as u16`, written little-endian; `u16le` keeps exactly the low 16 bits,
matching the `as u16` cast. -/
def write_header (cdata_len : Nat) : List Nat :=
  GZ_MAGIC_NUMBER ++ [GZ_CM_DEFLATE] ++ [BGZF_FLG] ++ u32le GZ_MTIME_NONE ++
    [BGZF_XFL] ++ [GZ_OS_UNKNOWN] ++ u16le BGZF_XLEN ++
    [BGZF_SI1] ++ [BGZF_SI2] ++ u16le BGZF_SLEN ++
    u16le (cdata_len + BGZF_HEADER_SIZE + TRAILER_SIZE - 1)

/-- Embedding of `write_trailer(writer, checksum, uncompressed_size)`:
two little-endian 32-bit fields. -/
def write_trailer (checksum uncompressed_size : Nat) : List Nat :=
  u32le checksum ++ u32le uncompressed_size

/-- State of `Writer<W>` with an in-memory sink: `sink` is the byte vector
held by `inner`; `encBuf` is the run of uncompressed bytes fed to the
`DeflateEncoder` since its last reset; `crcBytes` is the run of bytes fed to
the `Crc` hasher since its last reset (`crc.sum()` is its CRC-32); `amt` is
the `Crc` struct's explicit wrapping `u32` byte counter returned by
`crc.amount()`; `flushed` records, in order, the uncompressed payload of
every block already emitted (ghost history used to state block counting —
the sink bytes remain the authoritative output). -/
structure WriterState where
  sink : List Nat
  encBuf : List Nat
  crcBytes : List Nat
  amt : Nat
  flushed : List (List Nat)
deriving DecidableEq, Repr

/-- `crc.amount()`: the `Crc` struct's stored byte counter. -/
def crcAmount (s : WriterState) : Nat := s.amt

/-- `Writer::new(inner)` with an empty in-memory sink. -/
def Writer.new : WriterState := ⟨[], [], [], 0, []⟩

/-- The error kind returned by `Writer::write` when the block is full:
`io::ErrorKind::Interrupted`. -/
inductive IoErrorKind where
  | interrupted
deriving DecidableEq, Repr

deriving instance DecidableEq for Except

/-- A writer state whose current block is exactly full: 65536 uncompressed
bytes accumulated since the last flush. -/
def fullState : WriterState :=
  ⟨[], List.replicate 65536 0, List.replicate 65536 0, 65536, []⟩

/-- Worst-case behavior of the external deflate compressor on incompressible
input: stored-block framing adds 5 bytes per 65535-byte chunk, so 65536
input bytes come out as 65546 bytes. -/
def badCompress (l : List Nat) : List Nat := List.replicate (l.length + 10) 0

/-- The bytes one call to `flush_block` appends for a block with uncompressed
payload `p`: header for the compressed length, the compressed payload, then
the trailer holding the CRC-32 and the byte count of `p` (`crc.amount()`
equals `p.length` whenever the block was accumulated by the writer, which
never feeds more than 65536 bytes between resets). -/
def renderBlock (c : List Nat → List Nat) (k : List Nat → Nat)
    (p : List Nat) : List Nat :=
  write_header (c p).length ++ c p ++ write_trailer (k p) p.length

/-- Embedding of `Writer::flush_block`: finish the encoder, write header,
compressed data and trailer (CRC-32 sum and `crc.amount()`) to the sink,
then reset the encoder and the checksum. `c` is the abstracted deflate
compressor, `k` the abstracted CRC-32. -/
def Writer.flush_block (c : List Nat → List Nat) (k : List Nat → Nat)
    (s : WriterState) : WriterState :=
  ⟨s.sink ++ write_header (c s.encBuf).length ++ c s.encBuf ++
      write_trailer (k s.crcBytes) (crcAmount s),
    [], [], 0, s.flushed ++ [s.encBuf]⟩

/-- Embedding of `Writer::flush` (the `Write` impl): flush the block when
`crc.amount() > 0`, otherwise a no-op. -/
def Writer.flush (c : List Nat → List Nat) (k : List Nat → Nat)
    (s : WriterState) : WriterState :=
  if 0 < crcAmount s then Writer.flush_block c k s else s

/-- Embedding of `Writer::write` (the `Write` impl). When
`crc.amount() >= MAX_BGZF_BLOCK_SIZE` the writer flushes and returns
`ErrorKind::Interrupted`; otherwise it feeds
`min(MAX_BGZF_BLOCK_SIZE - amount, buf.len())` bytes to the encoder, updates
the checksum over exactly those bytes, and returns the count. (The external
encoder with an in-memory `Vec` sink consumes every byte handed to it and
never fails, so `bytes_written` equals the slice length.) -/
def Writer.write (c : List Nat → List Nat) (k : List Nat → Nat)
    (s : WriterState) (buf : List Nat) :
    Except IoErrorKind Nat × WriterState :=
  if MAX_BGZF_BLOCK_SIZE ≤ crcAmount s then
    (Except.error IoErrorKind.interrupted, Writer.flush c k s)
  else
    let n := min (MAX_BGZF_BLOCK_SIZE - crcAmount s) buf.length
    (Except.ok n,
      ⟨s.sink, s.encBuf ++ buf.take n, s.crcBytes ++ buf.take n,
        (s.amt + n) % 2 ^ 32, s.flushed⟩)

/-- Embedding of `Writer::finish`: `flush()` then append `BGZF_EOF`. -/
def Writer.finish (c : List Nat → List Nat) (k : List Nat → Nat)
    (s : WriterState) : WriterState :=
  let s1 := Writer.flush c k s
  ⟨s1.sink ++ BGZF_EOF, s1.encBuf, s1.crcBytes, s1.amt, s1.flushed⟩

/-- One public writer operation: a `write` call with a buffer, or a `flush`
call. -/
inductive WriterOp where
  | write (buf : List Nat)
  | flush
deriving DecidableEq, Repr

/-- Apply one public operation to the writer state (a `write` call's return
value is discarded; only the state effect is kept). -/
def Writer.step (c : List Nat → List Nat) (k : List Nat → Nat)
    (s : WriterState) : WriterOp → WriterState
  | WriterOp.write buf => (Writer.write c k s buf).2
  | WriterOp.flush => Writer.flush c k s

/-- Run a sequence of public operations from a fresh writer. -/
def Writer.run (c : List Nat → List Nat) (k : List Nat → Nat)
    (ops : List WriterOp) : WriterState :=
  ops.foldl (Writer.step c k) Writer.new

/-- The caller loop of `std::io::Write::write_all`: while bytes remain,
call `write`; on `Ok(n)` continue with the remaining bytes, on an
`Interrupted` error retry with the same bytes. `fuel` bounds the number of
calls (the theorems supply enough for the loop to run to completion). -/
def driveWrite (c : List Nat → List Nat) (k : List Nat → Nat) :
    Nat → WriterState → List Nat → WriterState
  | 0, s, _ => s
  | fuel + 1, s, buf =>
    if buf.isEmpty then s
    else
      match Writer.write c k s buf with
      | (Except.ok n, s1) => driveWrite c k fuel s1 (buf.drop n)
      | (Except.error _, s1) => driveWrite c k fuel s1 buf

/-- Reachability invariant of the writer: the checksum has absorbed exactly
the bytes fed to the encoder; the `amt` counter holds their exact count (it
never wraps); at most 65536 bytes are accumulated; the sink is the rendering
of the flushed blocks; every flushed block held at most 65536 uncompressed
bytes. -/
def WriterInv (c : List Nat → List Nat) (k : List Nat → Nat)
    (s : WriterState) : Prop :=
  s.crcBytes = s.encBuf ∧ s.amt = s.crcBytes.length ∧
    s.encBuf.length ≤ 65536 ∧
    s.sink = (s.flushed.map (renderBlock c k)).flatten ∧
    ∀ p ∈ s.flushed, p.length ≤ 65536

/-- SAM header read-group platform (`PL`), from
`noodles-sam/src/header/read_group/platform.rs`. -/
inductive Platform where
  | capillary
  | dnbSeq
  | ls454
  | illumina
  | solid
  | helicos
  | ionTorrent
  | ont
  | pacBio
deriving DecidableEq, Repr

/-- Embedding of `impl AsRef<str> for Platform` (also the `Display`
rendering, which writes the same string). -/
def Platform.as_ref : Platform → String
  | Platform.capillary => "CAPILLARY"
  | Platform.dnbSeq => "DNBSEQ"
  | Platform.ls454 => "LS454"
  | Platform.illumina => "ILLUMINA"
  | Platform.solid => "SOLID"
  | Platform.helicos => "HELICOS"
  | Platform.ionTorrent => "IONTORRENT"
  | Platform.ont => "ONT"
  | Platform.pacBio => "PACBIO"

/-- The error returned when a raw platform fails to parse. -/
inductive ParseError where
  | empty
  | invalid
deriving DecidableEq, Repr

/-- Embedding of `impl FromStr for Platform`: an exact-match dispatch with
the empty string reported as `Empty` and any other unmatched string as
`Invalid`. -/
def Platform.from_str (s : String) : Except ParseError Platform :=
  if s = "" then Except.error ParseError.empty
  else if s = "CAPILLARY" then Except.ok Platform.capillary
  else if s = "DNBSEQ" then Except.ok Platform.dnbSeq
  else if s = "LS454" then Except.ok Platform.ls454
  else if s = "ILLUMINA" then Except.ok Platform.illumina
  else if s = "SOLID" then Except.ok Platform.solid
  else if s = "HELICOS" then Except.ok Platform.helicos
  else if s = "IONTORRENT" then Except.ok Platform.ionTorrent
  else if s = "ONT" then Except.ok Platform.ont
  else if s = "PACBIO" then Except.ok Platform.pacBio
  else Except.error ParseError.invalid

/-- CRAM record flags, from `noodles-cram/src/record/flags.rs`: the
`bitflags!`-generated struct holding a raw `u8` bit set. The four defined
bits are 0x01, 0x02, 0x04, 0x08. -/
structure Flags where
  bits : Nat
deriving DecidableEq, Repr

/-- The union of all defined flag bits (`Flags::all().bits()` = 0x0F). -/
def Flags.allBits : Nat := 0x0F

/-- Embedding of `impl From<u8> for Flags`, which is
`Flags::from_bits_truncate(value)`: keep only the defined bits. -/
def Flags.fromU8 (value : Nat) : Flags := ⟨value &&& Flags.allBits⟩

/-- Embedding of `impl From<Flags> for u8`, which is `flags.bits()`. -/
def Flags.toU8 (flags : Flags) : Nat := flags.bits

/-- Source constant `Flags::QUALITY_SCORES_STORED_AS_ARRAY = 0x01`. -/
def Flags.QUALITY_SCORES_STORED_AS_ARRAY : Flags := ⟨0x01⟩

/-- Source constant `Flags::DETACHED = 0x02`. -/
def Flags.DETACHED : Flags := ⟨0x02⟩

/-- Source constant `Flags::HAS_MATE_DOWNSTREAM = 0x04`. -/
def Flags.HAS_MATE_DOWNSTREAM : Flags := ⟨0x04⟩

/-- Source constant `Flags::DECODE_SEQUENCE_AS_UNKNOWN = 0x08`. -/
def Flags.DECODE_SEQUENCE_AS_UNKNOWN : Flags := ⟨0x08⟩

/-- SAM header reference sequence, from
`noodles-sam/src/header/reference_sequence.rs`: a name, an `i32` length,
and the remaining tag/value fields (the tag type plays no role in the
claims and is modelled as a string key). -/
structure ReferenceSequence where
  name : String
  len : Int
  fields : List (String × String)
deriving DecidableEq, Repr

/-- Embedding of `ReferenceSequence::new(name, len)` (empty field map). -/
def ReferenceSequence.new (name : String) (len : Int) : ReferenceSequence :=
  ⟨name, len, []⟩

/-- Source `ReferenceSequence::len_mut` returns `&mut self.name` — a mutable
borrow of the `name` field, not the `len` field. Writing the string `s`
through that borrow therefore produces this state. -/
def ReferenceSequence.write_via_len_mut (rs : ReferenceSequence)
    (s : String) : ReferenceSequence :=
  ⟨s, rs.len, rs.fields⟩

/-- Source `ReferenceSequence::name_mut` returns `&mut self.name`; writing
the string `s` through that borrow produces this state. -/
def ReferenceSequence.write_via_name_mut (rs : ReferenceSequence)
    (s : String) : ReferenceSequence :=
  ⟨s, rs.len, rs.fields⟩

theorem writerInv_new (c : List Nat → List Nat) (k : List Nat → Nat) :
    WriterInv c k Writer.new := by
  refine ⟨rfl, rfl, by simp [Writer.new], by simp [Writer.new], ?_⟩
  intro p hp
  simp [Writer.new] at hp

theorem flush_block_inv (c : List Nat → List Nat) (k : List Nat → Nat)
    (s : WriterState) (h : WriterInv c k s) :
    WriterInv c k (Writer.flush_block c k s) := by
  obtain ⟨hck, hamt, hlen, hsink, hfl⟩ := h
  refine ⟨rfl, rfl, by simp [Writer.flush_block], ?_, ?_⟩
  · have hamt2 : crcAmount s = s.encBuf.length := by
      rw [crcAmount, hamt, hck]
    simp [Writer.flush_block, hsink, hck, hamt2, renderBlock,
      List.flatten_append]
  · intro p hp
    simp [Writer.flush_block] at hp
    rcases hp with hp | hp
    · exact hfl p hp
    · subst hp; exact hlen

theorem flush_inv (c : List Nat → List Nat) (k : List Nat → Nat)
    (s : WriterState) (h : WriterInv c k s) :
    WriterInv c k (Writer.flush c k s) := by
  unfold Writer.flush
  split
  · exact flush_block_inv c k s h
  · exact h

theorem write_of_full (c : List Nat → List Nat) (k : List Nat → Nat)
    (s : WriterState) (buf : List Nat) (h : 65536 ≤ crcAmount s) :
    Writer.write c k s buf =
      (Except.error IoErrorKind.interrupted, Writer.flush c k s) := by
  simp [Writer.write, MAX_BGZF_BLOCK_SIZE, h]

theorem write_of_space (c : List Nat → List Nat) (k : List Nat → Nat)
    (s : WriterState) (buf : List Nat) (h : crcAmount s < 65536) :
    Writer.write c k s buf =
      (Except.ok (min (65536 - crcAmount s) buf.length),
        ⟨s.sink, s.encBuf ++ buf.take (min (65536 - crcAmount s) buf.length),
          s.crcBytes ++ buf.take (min (65536 - crcAmount s) buf.length),
          (s.amt + min (65536 - crcAmount s) buf.length) % 2 ^ 32,
          s.flushed⟩) := by
  simp [Writer.write, MAX_BGZF_BLOCK_SIZE, Nat.not_le.mpr h]

theorem write_inv (c : List Nat → List Nat) (k : List Nat → Nat)
    (s : WriterState) (buf : List Nat) (h : WriterInv c k s) :
    WriterInv c k (Writer.write c k s buf).2 := by
  by_cases hfull : 65536 ≤ crcAmount s
  · rw [write_of_full c k s buf hfull]
    exact flush_inv c k s h
  · push_neg at hfull
    rw [write_of_space c k s buf hfull]
    obtain ⟨hck, hamt, hlen, hsink, hfl⟩ := h
    have hamt2 : crcAmount s = s.encBuf.length := by
      rw [crcAmount, hamt, hck]
    have hamt3 : s.amt = s.encBuf.length := by rw [hamt, hck]
    refine ⟨by simp [hck], ?_, ?_, by simpa using hsink, by simpa using hfl⟩
    · simp only [List.length_append, List.length_take]
      rw [Nat.mod_eq_of_lt]
      · omega
      · omega
    · simp only [List.length_append, List.length_take]
      omega

/-- C1: a call to `Writer::write` made when the accumulation buffer is
already full (at least 65536 uncompressed bytes accumulated since the last
flush) first flushes the completed block to the sink (`flush` takes the
`flush_block` branch), consumes none of the caller's bytes (the resulting
state does not depend on `buf`), and returns the `Interrupted` error rather
than a byte count. -/
theorem c1_write_when_full (c : List Nat → List Nat) (k : List Nat → Nat)
    (s : WriterState) (buf : List Nat) (h : 65536 ≤ crcAmount s) :
    Writer.write c k s buf =
      (Except.error IoErrorKind.interrupted, Writer.flush_block c k s) ∧
    Writer.flush c k s = Writer.flush_block c k s := by
  have hpos : 0 < crcAmount s := lt_of_lt_of_le (by norm_num) h
  have hfl : Writer.flush c k s = Writer.flush_block c k s := by
    simp [Writer.flush, hpos]
  exact ⟨by rw [write_of_full c k s buf h, hfl], hfl⟩

/-- Witness for C1 at a concretely full writer state. -/
theorem c1_write_when_full_witness :
    65536 ≤ crcAmount fullState ∧
    Writer.write (fun l => l) (fun _ => 0) fullState [1, 2] =
      (Except.error IoErrorKind.interrupted,
        Writer.flush_block (fun l => l) (fun _ => 0) fullState) := by
  have h : 65536 ≤ crcAmount fullState := le_refl 65536
  exact ⟨h, (c1_write_when_full (fun l => l) (fun _ => 0) fullState [1, 2] h).1⟩

/-- C2: a call to `Writer::write` made when fewer than 65536 bytes are
accumulated appends exactly `min(65536 - accumulated, buf.len())` bytes to
the active compressor, updates the running checksum over exactly those
bytes, touches neither the sink nor the flushed history, and returns the
count consumed. -/
theorem c2_write_consumes_min (c : List Nat → List Nat) (k : List Nat → Nat)
    (s : WriterState) (buf : List Nat) (h : crcAmount s < 65536) :
    Writer.write c k s buf =
      (Except.ok (min (65536 - crcAmount s) buf.length),
        ⟨s.sink, s.encBuf ++ buf.take (min (65536 - crcAmount s) buf.length),
          s.crcBytes ++ buf.take (min (65536 - crcAmount s) buf.length),
          (s.amt + min (65536 - crcAmount s) buf.length) % 2 ^ 32,
          s.flushed⟩) :=
  write_of_space c k s buf h

/-- Witness for C2 at a fresh writer and a 3-byte buffer. -/
theorem c2_write_consumes_min_witness :
    crcAmount Writer.new < 65536 ∧
    Writer.write (fun l => l) (fun _ => 0) Writer.new [7, 8, 9] =
      (Except.ok 3, ⟨[], [7, 8, 9], [7, 8, 9], 3, []⟩) := by
  refine ⟨by decide, ?_⟩
  rw [c2_write_consumes_min (fun l => l) (fun _ => 0) Writer.new [7, 8, 9]
    (by decide)]
  decide

/-- C4 (code bug): a block accumulated from an uncompressed payload of at
most 65536 bytes does not always fit in 65536 on-disk bytes, and the 16-bit
BSIZE field loses information. With the full 65536-byte accumulation and a
worst-case (incompressible) compressed payload of 65546 bytes, the emitted
block occupies 65572 bytes on disk, while `write_header` truncates
`65546 + 18 + 8 - 1 = 65571` to the 16-bit value 35, so BSIZE + 1 = 36 is
not the on-disk size. -/
theorem c4_bsize_overflow :
    (List.replicate 65536 (0 : Nat)).length ≤ 65536 ∧
    (badCompress (List.replicate 65536 (0 : Nat))).length = 65546 ∧
    (Writer.flush_block badCompress (fun _ => 0) fullState).sink.length =
      BGZF_HEADER_SIZE + 65546 + TRAILER_SIZE ∧
    65536 < BGZF_HEADER_SIZE + 65546 + TRAILER_SIZE ∧
    List.drop 16 (write_header 65546) = u16le 35 ∧
    35 + 1 ≠ BGZF_HEADER_SIZE + 65546 + TRAILER_SIZE := by
  refine ⟨by rw [List.length_replicate],
    by simp only [badCompress, List.length_replicate], ?_,
    by norm_num [BGZF_HEADER_SIZE, TRAILER_SIZE], by decide,
    by norm_num [BGZF_HEADER_SIZE, TRAILER_SIZE]⟩
  have e1 : (Writer.flush_block badCompress (fun _ => 0) fullState).sink
      = fullState.sink ++ write_header (badCompress fullState.encBuf).length ++
        badCompress fullState.encBuf ++
        write_trailer ((fun _ : List Nat => 0) fullState.crcBytes)
          (crcAmount fullState) := rfl
  have e2 : fullState.sink = ([] : List Nat) := rfl
  have e3 : fullState.encBuf = List.replicate 65536 0 := rfl
  have ht : ∀ a b : Nat, (write_trailer a b).length = 8 := fun a b => rfl
  have h18 : ∀ m : Nat, (write_header m).length = 18 := fun m => rfl
  rw [e1, e2, e3]
  simp only [List.length_append, List.length_nil, h18, ht, badCompress,
    List.length_replicate]
  norm_num [BGZF_HEADER_SIZE, TRAILER_SIZE]

/-- C5 counterexample: for the compressed payload length 65511 the emitted
little-endian 16-bit subfield encodes 0, not
`payload_len + header_size + trailer_size - 1 = 65536` — the `as u16` cast
wraps. -/
theorem c5_bsize_counterexample :
    List.drop 16 (write_header 65511) = u16le 0 ∧
    (0 : Nat) ≠ 65511 + BGZF_HEADER_SIZE + TRAILER_SIZE - 1 := by decide

/-- C5 (amended): for every compressed payload length `n`, `write_header`
emits exactly the fixed-layout header — gzip magic bytes, deflate
compression-method byte 8, flags byte 0x04 (only FEXTRA), zeroed
modification time, zero extra flags, operating system 0xff (unknown),
extra-field length 6, subfield ids 0x42 0x43, subfield length 2 — followed
by the little-endian low 16 bits of
`n + header_size + trailer_size - 1`; that 16-bit value equals
`n + header_size + trailer_size - 1` exactly when `n ≤ 65510`. -/
theorem c5_header_layout (n : Nat) :
    write_header n =
      [0x1f, 0x8b, 0x08, 0x04, 0x00, 0x00, 0x00, 0x00, 0x00, 0xff, 0x06,
        0x00, 0x42, 0x43, 0x02, 0x00] ++
        [(n + BGZF_HEADER_SIZE + TRAILER_SIZE - 1) % 256,
          (n + BGZF_HEADER_SIZE + TRAILER_SIZE - 1) / 256 % 256] ∧
    (n ≤ 65510 →
      (n + BGZF_HEADER_SIZE + TRAILER_SIZE - 1) % 256 +
          256 * ((n + BGZF_HEADER_SIZE + TRAILER_SIZE - 1) / 256 % 256) =
        n + BGZF_HEADER_SIZE + TRAILER_SIZE - 1) := by
  constructor
  · simp [write_header, GZ_MAGIC_NUMBER, GZ_CM_DEFLATE, BGZF_FLG, u32le,
      GZ_MTIME_NONE, BGZF_XFL, GZ_OS_UNKNOWN, u16le, BGZF_XLEN, BGZF_SI1,
      BGZF_SI2, BGZF_SLEN]
  · intro h
    simp only [BGZF_HEADER_SIZE, TRAILER_SIZE]
    omega

/-- Witness for C5 at the compressed payload length 2 (the payload length of
the EOF block, whose BSIZE is 27). -/
theorem c5_header_layout_witness :
    (2 : Nat) ≤ 65510 ∧
    (2 + BGZF_HEADER_SIZE + TRAILER_SIZE - 1) % 256 +
        256 * ((2 + BGZF_HEADER_SIZE + TRAILER_SIZE - 1) / 256 % 256) =
      2 + BGZF_HEADER_SIZE + TRAILER_SIZE - 1 :=
  ⟨by decide, (c5_header_layout 2).2 (by decide)⟩

/-- C6: `finish` performs `flush` and then appends the fixed 28-byte
end-of-file marker, so the sink after `finish` is the flushed sink followed
by the marker (in particular its final 28 bytes are the marker), and a
writer given zero input bytes outputs exactly the marker. -/
theorem c6_finish_eof (c : List Nat → List Nat) (k : List Nat → Nat)
    (s : WriterState) :
    (Writer.finish c k s).sink = (Writer.flush c k s).sink ++ BGZF_EOF ∧
    BGZF_EOF.length = 28 ∧
    (Writer.finish c k Writer.new).sink = BGZF_EOF := by
  refine ⟨rfl, rfl, ?_⟩
  simp [Writer.finish, Writer.flush, crcAmount, Writer.new]

/-- C8: rendering a platform via `AsRef<str>` and parsing it back returns
exactly that platform; parsing the empty string fails with `Empty`; parsing
any other string that is not one of the nine fixed uppercase platform names
fails with `Invalid`. -/
theorem c8_platform_roundtrip :
    (∀ p : Platform, Platform.from_str (Platform.as_ref p) = Except.ok p) ∧
    Platform.from_str "" = Except.error ParseError.empty ∧
    (∀ s : String, s ≠ "" → (∀ p : Platform, Platform.as_ref p ≠ s) →
      Platform.from_str s = Except.error ParseError.invalid) := by
  refine ⟨fun p => by cases p <;> rfl, rfl, ?_⟩
  intro s h0 hall
  have n1 : ¬(s = "CAPILLARY") := fun h =>
    hall Platform.capillary (by rw [h]; rfl)
  have n2 : ¬(s = "DNBSEQ") := fun h => hall Platform.dnbSeq (by rw [h]; rfl)
  have n3 : ¬(s = "LS454") := fun h => hall Platform.ls454 (by rw [h]; rfl)
  have n4 : ¬(s = "ILLUMINA") := fun h =>
    hall Platform.illumina (by rw [h]; rfl)
  have n5 : ¬(s = "SOLID") := fun h => hall Platform.solid (by rw [h]; rfl)
  have n6 : ¬(s = "HELICOS") := fun h => hall Platform.helicos (by rw [h]; rfl)
  have n7 : ¬(s = "IONTORRENT") := fun h =>
    hall Platform.ionTorrent (by rw [h]; rfl)
  have n8 : ¬(s = "ONT") := fun h => hall Platform.ont (by rw [h]; rfl)
  have n9 : ¬(s = "PACBIO") := fun h => hall Platform.pacBio (by rw [h]; rfl)
  rw [Platform.from_str, if_neg h0, if_neg n1, if_neg n2, if_neg n3,
    if_neg n4, if_neg n5, if_neg n6, if_neg n7, if_neg n8, if_neg n9]

/-- Witness for C8 at the non-matching string "NOODLES" and the platform
`Illumina`. -/
theorem c8_platform_roundtrip_witness :
    Platform.from_str "NOODLES" = Except.error ParseError.invalid ∧
    Platform.from_str (Platform.as_ref Platform.illumina) =
      Except.ok Platform.illumina :=
  ⟨c8_platform_roundtrip.2.2 "NOODLES" (by decide)
      (fun p => by cases p <;> decide),
    c8_platform_roundtrip.1 Platform.illumina⟩

/-- C9: every `Flags` value the program can construct carries only the four
defined bits (`bits &&& 0x0F = bits`), and for such values the `u8` round
trip `Flags::from(u8::from(f))` is the identity; conversely
`u8::from(Flags::from(v))` is `v &&& 0x0F` for every byte `v` — the
conversion silently drops the high four bits, so the `u8` round trip through
`Flags` is the identity exactly on bytes below 16. -/
theorem c9_flags_roundtrip :
    (∀ f : Flags, f.bits &&& 0x0F = f.bits →
      Flags.fromU8 (Flags.toU8 f) = f) ∧
    (∀ v : Nat, v < 256 → Flags.toU8 (Flags.fromU8 v) = v &&& 0x0F) ∧
    (∀ v : Nat, v < 256 →
      Flags.fromU8 (Flags.toU8 (Flags.fromU8 v)) = Flags.fromU8 v) ∧
    (∀ v : Nat, v < 256 → (Flags.toU8 (Flags.fromU8 v) = v ↔ v < 16)) := by
  refine ⟨?_, fun v _ => rfl, ?_, ?_⟩
  · intro f hin
    cases f with
    | mk b =>
      simp only [Flags.fromU8, Flags.toU8, Flags.allBits]
      exact congrArg Flags.mk hin
  · intro v _
    simp only [Flags.fromU8, Flags.toU8, Flags.allBits]
    rw [Nat.and_assoc, show (0x0F &&& 0x0F : Nat) = 0x0F from rfl]
  · intro v _
    simp only [Flags.fromU8, Flags.toU8, Flags.allBits]
    constructor
    · intro h
      have hle : v &&& 0x0F ≤ 0x0F := Nat.and_le_right
      omega
    · intro h
      interval_cases v <;> rfl

/-- Witness for C9 at the detached flag and the byte 0xF3. -/
theorem c9_flags_roundtrip_witness :
    (Flags.DETACHED.bits &&& 0x0F = Flags.DETACHED.bits ∧
      Flags.fromU8 (Flags.toU8 Flags.DETACHED) = Flags.DETACHED) ∧
    (243 < 256 ∧ Flags.toU8 (Flags.fromU8 243) = 243 &&& 0x0F) ∧
    ((243 : Nat) < 16 ↔ Flags.toU8 (Flags.fromU8 243) = 243) :=
  ⟨⟨by decide, c9_flags_roundtrip.1 Flags.DETACHED (by decide)⟩,
    ⟨by decide, c9_flags_roundtrip.2.1 243 (by decide)⟩,
    (c9_flags_roundtrip.2.2.2 243 (by decide)).symm⟩

/-- C10: writing a string through the mutable reference returned by
`len_mut` changes the value returned by `name` to that string and leaves
the value returned by `len` (and the remaining fields) unchanged: `len_mut`
aliases the `name` field. -/
theorem c10_len_mut_aliases_name (rs : ReferenceSequence) (s : String) :
    (rs.write_via_len_mut s).name = s ∧
    (rs.write_via_len_mut s).len = rs.len ∧
    (rs.write_via_len_mut s).fields = rs.fields ∧
    rs.write_via_len_mut s = rs.write_via_name_mut s :=
  ⟨rfl, rfl, rfl, rfl⟩

theorem step_inv (c : List Nat → List Nat) (k : List Nat → Nat)
    (s : WriterState) (op : WriterOp) (h : WriterInv c k s) :
    WriterInv c k (Writer.step c k s op) := by
  cases op with
  | write buf => exact write_inv c k s buf h
  | flush => exact flush_inv c k s h

theorem foldl_inv (c : List Nat → List Nat) (k : List Nat → Nat) :
    ∀ (ops : List WriterOp) (s : WriterState), WriterInv c k s →
      WriterInv c k (ops.foldl (Writer.step c k) s)
  | [], _, h => h
  | op :: ops, s, h => foldl_inv c k ops _ (step_inv c k s op h)

theorem finish_spec (c : List Nat → List Nat) (k : List Nat → Nat)
    (s : WriterState) (h : WriterInv c k s) :
    (Writer.finish c k s).flushed.length
        = s.flushed.length + (s.encBuf.length + 65535) / 65536 ∧
    (Writer.finish c k s).sink
        = ((Writer.finish c k s).flushed.map (renderBlock c k)).flatten ++
            BGZF_EOF := by
  obtain ⟨hck, hamt, hlen, hsink, hfl⟩ := h
  have hckl : s.crcBytes.length = s.encBuf.length := by rw [hck]
  have hca : crcAmount s = s.amt := rfl
  have hfs : (Writer.finish c k s).sink
      = (Writer.flush c k s).sink ++ BGZF_EOF := rfl
  have hff : (Writer.finish c k s).flushed
      = (Writer.flush c k s).flushed := rfl
  by_cases hz : 0 < crcAmount s
  · have hfe : Writer.flush c k s = Writer.flush_block c k s := by
      simp [Writer.flush, hz]
    have henc : 0 < s.encBuf.length := by omega
    constructor
    · rw [hff, hfe]
      have hbf : (Writer.flush_block c k s).flushed
          = s.flushed ++ [s.encBuf] := rfl
      rw [hbf, List.length_append]
      have hone : (s.encBuf.length + 65535) / 65536 = 1 := by omega
      rw [hone]
      simp
    · rw [hfs, hff, hfe]
      have hbs : (Writer.flush_block c k s).sink
          = s.sink ++ renderBlock c k s.encBuf := by
        show s.sink ++ write_header (c s.encBuf).length ++ c s.encBuf ++
            write_trailer (k s.crcBytes) (crcAmount s) = _
        have hca2 : crcAmount s = s.encBuf.length := by
          rw [hca, hamt, hckl]
        rw [hca2, hck, renderBlock]
        simp [List.append_assoc]
      have hbf : (Writer.flush_block c k s).flushed
          = s.flushed ++ [s.encBuf] := rfl
      rw [hbs, hbf]
      simp [hsink, List.flatten_append]
  · have hfe : Writer.flush c k s = s := by simp [Writer.flush, hz]
    have henc : s.encBuf.length = 0 := by omega
    constructor
    · rw [hff, hfe, henc]
      norm_num
    · rw [hfs, hff, hfe, hsink]

theorem drive_finish_spec (c : List Nat → List Nat) (k : List Nat → Nat) :
    ∀ (fuel : Nat), ∀ (buf : List Nat) (s : WriterState), WriterInv c k s →
      2 * buf.length + (if 65536 ≤ s.amt then 2 else 1) ≤ fuel →
      (Writer.finish c k (driveWrite c k fuel s buf)).flushed.length
          = s.flushed.length + (s.encBuf.length + buf.length + 65535) / 65536 ∧
      (Writer.finish c k (driveWrite c k fuel s buf)).sink
          = ((Writer.finish c k (driveWrite c k fuel s buf)).flushed.map
              (renderBlock c k)).flatten ++ BGZF_EOF := by
  intro fuel
  induction fuel with
  | zero =>
    intro buf s _ hfuel
    by_cases h : 65536 ≤ s.amt
    · rw [if_pos h] at hfuel; omega
    · rw [if_neg h] at hfuel; omega
  | succ fuel ih =>
    intro buf s hinv hfuel
    obtain ⟨hck, hamt, hlen, hsink, hfl⟩ := hinv
    have hckl : s.crcBytes.length = s.encBuf.length := by rw [hck]
    have hca : crcAmount s = s.amt := rfl
    cases buf with
    | nil =>
      have hdw : driveWrite c k (fuel + 1) s [] = s := rfl
      rw [hdw]
      have h := finish_spec c k s ⟨hck, hamt, hlen, hsink, hfl⟩
      refine ⟨?_, h.2⟩
      rw [h.1]
      simp
    | cons b bs =>
      by_cases hfull : 65536 ≤ crcAmount s
      · have hw := write_of_full c k s (b :: bs) hfull
        have hfe : Writer.flush c k s = Writer.flush_block c k s := by
          have hz : 0 < crcAmount s := by omega
          simp [Writer.flush, hz]
        have hstep : driveWrite c k (fuel + 1) s (b :: bs)
            = driveWrite c k fuel (Writer.flush_block c k s) (b :: bs) := by
          simp only [driveWrite, List.isEmpty_cons, Bool.false_eq_true,
            if_false, hw, hfe]
        have hinv2 : WriterInv c k (Writer.flush_block c k s) :=
          flush_block_inv c k s ⟨hck, hamt, hlen, hsink, hfl⟩
        have hamt2 : (Writer.flush_block c k s).amt = 0 := rfl
        have hfuel2 : 2 * (b :: bs).length +
            (if 65536 ≤ (Writer.flush_block c k s).amt then 2 else 1) ≤ fuel := by
          rw [hamt2, if_neg (by omega)]
          rw [if_pos (by omega : 65536 ≤ s.amt)] at hfuel
          omega
        have h := ih (b :: bs) (Writer.flush_block c k s) hinv2 hfuel2
        rw [hstep]
        refine ⟨?_, h.2⟩
        rw [h.1]
        have hbf : (Writer.flush_block c k s).flushed
            = s.flushed ++ [s.encBuf] := rfl
        have hbe : (Writer.flush_block c k s).encBuf = [] := rfl
        rw [hbf, hbe, List.length_append]
        have henc : s.encBuf.length = 65536 := by omega
        rw [henc]
        simp only [List.length_nil, List.length_cons]
        omega
      · push_neg at hfull
        have hw := write_of_space c k s (b :: bs) hfull
        set n := min (65536 - crcAmount s) (b :: bs).length with hn
        set s1 : WriterState :=
          ⟨s.sink, s.encBuf ++ (b :: bs).take n, s.crcBytes ++ (b :: bs).take n,
            (s.amt + n) % 2 ^ 32, s.flushed⟩ with hs1
        have hstep : driveWrite c k (fuel + 1) s (b :: bs)
            = driveWrite c k fuel s1 ((b :: bs).drop n) := by
          simp only [driveWrite, List.isEmpty_cons, Bool.false_eq_true,
            if_false, hw]
        have hinv2 : WriterInv c k s1 := by
          have h2 := write_inv c k s (b :: bs) ⟨hck, hamt, hlen, hsink, hfl⟩
          rw [hw] at h2
          exact h2
        have hn1 : 1 ≤ n := by
          have : 1 ≤ (b :: bs).length := by simp
          omega
        have hnle : n ≤ (b :: bs).length := min_le_right _ _
        have hfuel2 : 2 * ((b :: bs).drop n).length +
            (if 65536 ≤ s1.amt then 2 else 1) ≤ fuel := by
          have hd : ((b :: bs).drop n).length = (b :: bs).length - n :=
            List.length_drop n (b :: bs)
          have hb2 : (if 65536 ≤ s1.amt then 2 else 1) ≤ 2 := by
            split <;> omega
          rw [if_neg (by omega : ¬ 65536 ≤ s.amt)] at hfuel
          omega
        have h := ih ((b :: bs).drop n) s1 hinv2 hfuel2
        rw [hstep]
        refine ⟨?_, h.2⟩
        rw [h.1]
        have hf1 : s1.flushed = s.flushed := rfl
        have he1 : s1.encBuf = s.encBuf ++ (b :: bs).take n := rfl
        rw [hf1, he1, List.length_append, List.length_take,
          List.length_drop]
        omega

/-- C3: over every sequence of public `write` and `flush` operations from a
fresh writer, the number of uncompressed bytes accumulated since the last
flush (the checksum's absorbed byte run, equivalently `crc.amount()`) never
exceeds 65536, so every block the writer flushes has an uncompressed payload
of at most 65536 bytes. -/
theorem c3_accumulation_cap (c : List Nat → List Nat) (k : List Nat → Nat)
    (ops : List WriterOp) :
    (Writer.run c k ops).crcBytes.length ≤ 65536 ∧
    crcAmount (Writer.run c k ops) ≤ 65536 ∧
    ∀ p ∈ (Writer.run c k ops).flushed, p.length ≤ 65536 := by
  have h := foldl_inv c k ops Writer.new (writerInv_new c k)
  obtain ⟨hck, hamt, hlen, hsink, hfl⟩ := h
  have hca : crcAmount (ops.foldl (Writer.step c k) Writer.new)
      = (ops.foldl (Writer.step c k) Writer.new).amt := rfl
  have hckl : (ops.foldl (Writer.step c k) Writer.new).crcBytes.length
      = (ops.foldl (Writer.step c k) Writer.new).encBuf.length := by rw [hck]
  refine ⟨?_, ?_, ?_⟩
  · rw [Writer.run, hck]
    exact hlen
  · rw [Writer.run]
    omega
  · rw [Writer.run]
    exact hfl

/-- C7: feeding `N` bytes through the `write_all` retry loop (re-invoking
`write` with the remaining bytes on a partial count and retrying on the
`Interrupted` signal) with no manual flush, then calling `finish`, emits
exactly `⌈N / 65536⌉` data blocks, and the sink is exactly those rendered
blocks in order followed by exactly one end-of-file marker. -/
theorem c7_block_count (c : List Nat → List Nat) (k : List Nat → Nat)
    (data : List Nat) :
    (Writer.finish c k
        (driveWrite c k (2 * data.length + 2) Writer.new data)).flushed.length
      = (data.length + 65535) / 65536 ∧
    (Writer.finish c k
        (driveWrite c k (2 * data.length + 2) Writer.new data)).sink
      = ((Writer.finish c k
            (driveWrite c k (2 * data.length + 2) Writer.new data)).flushed.map
          (renderBlock c k)).flatten ++ BGZF_EOF := by
  have hb : 2 * data.length + (if 65536 ≤ Writer.new.amt then 2 else 1)
      ≤ 2 * data.length + 2 := by
    have : Writer.new.amt = 0 := rfl
    rw [this, if_neg (by omega)]
    omega
  have h := drive_finish_spec c k (2 * data.length + 2) data Writer.new
    (writerInv_new c k) hb
  refine ⟨?_, h.2⟩
  rw [h.1]
  have h1 : Writer.new.flushed = [] := rfl
  have h2 : Writer.new.encBuf = [] := rfl
  rw [h1, h2]
  simp
